import Mathlib

/-!
Shallow embedding of the conversation-parsing and highlight-extraction core
of the `llms_to_pdf` repository (`src/lib/conversationParser.ts` and
`src/lib/smartHighlighter.ts`), together with theorems settling the frozen
claims about it.

Modelling conventions:
* JavaScript strings are modelled as `String` viewed as its list of
  characters (`String.data`); offsets count characters (UTF-16 units and
  characters coincide on the BMP text the parser handles).
* JavaScript `number` confidence scores are modelled as `Rat`: the only
  operations applied to them are `Math.min` and order comparisons, which
  are exact on every non-`NaN` value.
* The external OpenAI call and the `JSON.parse`-plus-shape-check of its
  reply are abstracted into an `OracleOutcome` value and a
  `parseResponse : String → Option _` parameter; `none` models every
  failure that the source catches.
* Scanning loops of the three extraction regexes are written with an
  explicit fuel argument (initialised to the list length) so that they are
  structurally recursive and evaluable by the kernel.
-/

namespace LlmsToPdf

/-- The empty string (used where the source seeds an accumulator with `''`). -/
def emptyS : String := ""

/-- The backtick character that forms code fences. -/
def btick : Char := Char.ofNat 96

/-- Characters matched by the JavaScript regex class `\s` (ECMAScript
WhiteSpace and LineTerminator); this is also the set removed by
`String.prototype.trim`. -/
def isJsWs (c : Char) : Bool :=
  c = ' ' || c = '\t' || c = '\n' || c = '\r' || c = '\x0b' || c = '\x0c' ||
  c.toNat = 0xA0 || c.toNat = 0x1680 || (0x2000 ≤ c.toNat && c.toNat ≤ 0x200A) ||
  c.toNat = 0x2028 || c.toNat = 0x2029 || c.toNat = 0x202F || c.toNat = 0x205F ||
  c.toNat = 0x3000 || c.toNat = 0xFEFF

/-- Drop a trailing run of JS whitespace. -/
def dropTrail : List Char → List Char
  | [] => []
  | c :: rest =>
    match dropTrail rest with
    | [] => if isJsWs c then [] else [c]
    | r => c :: r

/-- `String.prototype.trim` on character lists: remove leading and trailing
JS whitespace. -/
def trimChars (l : List Char) : List Char :=
  dropTrail (l.dropWhile isJsWs)

/-- `String.prototype.trim`. -/
def jsTrim (s : String) : String := String.mk (trimChars s.data)

/-- Characters of the half-open slice `[a, b)` of a list. -/
def sliceL (l : List Char) (a b : Nat) : List Char := (l.drop a).take (b - a)

/-- `String.prototype.substring(a, b)` for `0 ≤ a ≤ b ≤ length` (the only
regime in which the embedded code calls it). -/
def subChars (s : String) (a b : Nat) : String := String.mk (sliceL s.data a b)

/-- `String.prototype.length`. -/
def strLen (s : String) : Nat := s.data.length

/-- Whether `l` starts with the pattern (second argument), case-sensitively. -/
def startsWithChars : List Char → List Char → Bool
  | _, [] => true
  | [], _ :: _ => false
  | c :: cs, d :: ds => c = d && startsWithChars cs ds

/-- Whether `l` starts with the lower-case pattern (second argument),
comparing case-insensitively via `Char.toLower` (ASCII case folding, as in
the inputs the source handles). -/
def startsWithCIChars : List Char → List Char → Bool
  | _, [] => true
  | [], _ :: _ => false
  | c :: cs, d :: ds => c.toLower = d && startsWithCIChars cs ds

/-- Whether `sub` occurs as a contiguous substring
(`String.prototype.includes`). -/
def occursIn (sub : List Char) : List Char → Bool
  | [] => startsWithChars [] sub
  | c :: rest => startsWithChars (c :: rest) sub || occursIn sub rest

/-- `s.includes(sub)`. -/
def strIncludes (s sub : String) : Bool := occursIn sub.data s.data

/-- `s.toLowerCase()` (ASCII case folding). -/
def lowerStr (s : String) : String := String.mk (s.data.map Char.toLower)

/-- `content.split('\n')` on character lists (JavaScript semantics: the
empty string yields one empty field). -/
def splitNlChars : List Char → List (List Char)
  | [] => [[]]
  | c :: rest =>
    if c = '\n' then [] :: splitNlChars rest
    else
      match splitNlChars rest with
      | [] => [[c]]
      | h :: t => (c :: h) :: t

/-- `content.split('\n')`. -/
def splitNl (s : String) : List String := (splitNlChars s.data).map String.mk

/-- Insertion-ordered deduplication carrying the set of already-seen
elements. -/
def dedupAcc (seen : List String) : List String → List String
  | [] => []
  | x :: xs => if x ∈ seen then dedupAcc seen xs else x :: dedupAcc (x :: seen) xs

/-- `[...new Set(xs)]`: keep the first occurrence of each element. -/
def dedupTags (xs : List String) : List String := dedupAcc [] xs

/-- `xs.join(' ')`. -/
def joinSpace : List String → String
  | [] => emptyS
  | [s] => s
  | s :: rest => s ++ " " ++ joinSpace rest

/-! ## Data model -/

/-- Message roles (`'user' | 'assistant' | 'system'`). -/
inductive Role where
  | user
  | assistant
  | system
  deriving DecidableEq, Repr

/-- `ConversationSource`. -/
inductive ConversationSource where
  | chatgpt
  | claude
  | gemini
  | perplexity
  | custom
  deriving DecidableEq, Repr

/-- `ParsedMessage` (the optional timestamp/metadata fields take no part in
any embedded computation and are omitted). -/
structure ParsedMessage where
  role : Role
  content : String
  deriving DecidableEq, Repr

/-- `ParsedConversation` (the free-form `metadata` record takes no part in
any embedded computation and is omitted). -/
structure ParsedConversation where
  title : String
  source : ConversationSource
  messages : List ParsedMessage
  tags : List String
  category : Option String
  deriving DecidableEq, Repr

/-- Highlight categories. -/
inductive Category where
  | code
  | insight
  | action_item
  | resource
  | question
  | other
  deriving DecidableEq, Repr

/-- A highlight's position.  The fields are `Int` because on the oracle path
they arrive from untrusted JSON and the validator explicitly checks for
negative values. -/
structure Position where
  messageIndex : Int
  startChar : Int
  endChar : Int
  deriving DecidableEq, Repr

/-- `Highlight`. -/
structure Highlight where
  content : String
  category : Category
  confidence_score : Rat
  tags : List String
  notes : Option String
  position : Position
  deriving DecidableEq, Repr

/-- `CategorizationResult` (the spec's AnalysisResult). -/
structure CategorizationResult where
  highlights : List Highlight
  summary : String
  key_topics : List String
  action_items : List String
  resources : List String
  questions : List String
  deriving DecidableEq, Repr

/-- The shape of a successfully parsed oracle response as consumed by
`validateAndEnhanceResult`.  JavaScript's `result.summary || fallback`
treats a missing and an empty summary alike, so a missing summary is
modelled as `""`; the four `|| []` list defaults are modelled with
`Option` (`none` = field absent). -/
structure OracleResult where
  highlights : List Highlight
  summary : String
  key_topics : Option (List String)
  action_items : Option (List String)
  resources : Option (List String)
  questions : Option (List String)
  deriving DecidableEq, Repr

/-- Outcome of the optional OpenAI call: no client configured, a thrown
transport error, or a reply whose `choices[0]?.message?.content` is absent
(`none`) or a string. -/
inductive OracleOutcome where
  | noOracle
  | transportError
  | reply (content : Option String)
  deriving DecidableEq, Repr

/-! ## ConversationParser -/

/-- `line.startsWith(p)`. -/
def lineStarts (line p : String) : Bool := startsWithChars line.data p.data

/-- Case-insensitive prefix test for `parseCustom`'s `/^(...):/i` patterns;
`p` must be lower-case. -/
def lineStartsCI (line p : String) : Bool := startsWithCIChars line.data p.data

/-- Drop the first `n` characters; models `line.replace(pat, '')` when `pat`
matched a prefix of length `n`. -/
def strDrop (s : String) (n : Nat) : String := String.mk (s.data.drop n)

/-- Role-prefix test of `parseChatGPT`: the new role and the seed text
(prefix stripped, trimmed) when the line starts a new message. -/
def chatgptMatchLine (line : String) : Option (Role × String) :=
  if lineStarts line (r"User:") then some (Role.user, jsTrim (strDrop line 5))
  else if lineStarts line (r"Assistant:") then some (Role.assistant, jsTrim (strDrop line 10))
  else if lineStarts line (r"ChatGPT:") then some (Role.assistant, jsTrim (strDrop line 8))
  else if lineStarts line (r"System:") then some (Role.system, jsTrim (strDrop line 7))
  else none

/-- Role-prefix test of `parseClaude`. -/
def claudeMatchLine (line : String) : Option (Role × String) :=
  if lineStarts line (r"Human:") then some (Role.user, jsTrim (strDrop line 6))
  else if lineStarts line (r"Assistant:") then some (Role.assistant, jsTrim (strDrop line 10))
  else if lineStarts line (r"Claude:") then some (Role.assistant, jsTrim (strDrop line 7))
  else if lineStarts line (r"System:") then some (Role.system, jsTrim (strDrop line 7))
  else none

/-- Role-prefix test of `parseGemini` (no system prefix in this variant). -/
def geminiMatchLine (line : String) : Option (Role × String) :=
  if lineStarts line (r"User:") then some (Role.user, jsTrim (strDrop line 5))
  else if lineStarts line (r"Gemini:") then some (Role.assistant, jsTrim (strDrop line 7))
  else if lineStarts line (r"Assistant:") then some (Role.assistant, jsTrim (strDrop line 10))
  else none

/-- Role-prefix test of `parsePerplexity` (no system prefix in this variant). -/
def perplexityMatchLine (line : String) : Option (Role × String) :=
  if lineStarts line (r"User:") then some (Role.user, jsTrim (strDrop line 5))
  else if lineStarts line (r"Perplexity:") then some (Role.assistant, jsTrim (strDrop line 11))
  else if lineStarts line (r"Assistant:") then some (Role.assistant, jsTrim (strDrop line 10))
  else none

/-- Role-prefix test of `parseCustom`: the three `/^(...):/i` pattern groups
in source order, each alternation in source order. -/
def customMatchLine (line : String) : Option (Role × String) :=
  if lineStartsCI line (r"user:") then some (Role.user, jsTrim (strDrop line 5))
  else if lineStartsCI line (r"human:") then some (Role.user, jsTrim (strDrop line 6))
  else if lineStartsCI line (r"me:") then some (Role.user, jsTrim (strDrop line 3))
  else if lineStartsCI line (r"i:") then some (Role.user, jsTrim (strDrop line 2))
  else if lineStartsCI line (r"assistant:") then some (Role.assistant, jsTrim (strDrop line 10))
  else if lineStartsCI line (r"ai:") then some (Role.assistant, jsTrim (strDrop line 3))
  else if lineStartsCI line (r"bot:") then some (Role.assistant, jsTrim (strDrop line 4))
  else if lineStartsCI line (r"chatgpt:") then some (Role.assistant, jsTrim (strDrop line 8))
  else if lineStartsCI line (r"claude:") then some (Role.assistant, jsTrim (strDrop line 7))
  else if lineStartsCI line (r"gemini:") then some (Role.assistant, jsTrim (strDrop line 7))
  else if lineStartsCI line (r"perplexity:") then some (Role.assistant, jsTrim (strDrop line 11))
  else if lineStartsCI line (r"system:") then some (Role.system, jsTrim (strDrop line 7))
  else if lineStartsCI line (r"context:") then some (Role.system, jsTrim (strDrop line 8))
  else if lineStartsCI line (r"instructions:") then some (Role.system, jsTrim (strDrop line 13))
  else none

/-- Push the trimmed accumulated text as a message when it is non-empty
(`if (currentContent.trim()) messages.push({role, content: trim})`). -/
def flushMsg (role : Role) (cur : String) : List ParsedMessage :=
  if jsTrim cur = emptyS then [] else [ParsedMessage.mk role (jsTrim cur)]

/-- The shared line loop of every `ConversationParser.parseXxx` variant:
fold over the lines with the current role (initially `user`) and the
accumulating text buffer (initially `''`). -/
def parseLines (matchLine : String → Option (Role × String)) :
    List String → Role → String → List ParsedMessage
  | [], role, cur => flushMsg role cur
  | line :: rest, role, cur =>
    match matchLine line with
    | some rs => flushMsg role cur ++ parseLines matchLine rest rs.1 rs.2
    | none =>
      parseLines matchLine rest role (if cur = emptyS then line else cur ++ "\n" ++ line)

/-- Title derivation shared by every parser variant: the first line of the
first message if that message is user-authored and the line is shorter than
100 characters, else the dialect's generic title. -/
def deriveTitle (generic : String) (messages : List ParsedMessage) : String :=
  match messages with
  | [] => generic
  | m :: _ =>
    if m.role = Role.user then
      let firstLine := match splitNl m.content with
        | [] => emptyS
        | l :: _ => l
      if strLen firstLine < 100 then firstLine else generic
    else generic

/-- `ConversationParser.extractTags` (over the whole raw input). -/
def parserExtractTags (content : String) : List String :=
  (if strIncludes (lowerStr content) (r"code") || strIncludes content (r"```") then [r"code"] else []) ++
  (if strIncludes (lowerStr content) (r"api") || strIncludes (lowerStr content) (r"endpoint") then [r"api"] else []) ++
  (if strIncludes (lowerStr content) (r"database") || strIncludes (lowerStr content) (r"sql") then [r"database"] else []) ++
  (if strIncludes (lowerStr content) (r"frontend") || strIncludes (lowerStr content) (r"react") then [r"frontend"] else []) ++
  (if strIncludes (lowerStr content) (r"backend") || strIncludes (lowerStr content) (r"server") then [r"backend"] else []) ++
  (if strIncludes (lowerStr content) (r"deployment") || strIncludes (lowerStr content) (r"docker") then [r"deployment"] else [])

/-- `ConversationParser.categorizeConversation` (the parser's category
derivation; distinct from the highlighter's `categorizeConversation`). -/
def categorizeMessages (messages : List ParsedMessage) : String :=
  let content := lowerStr (joinSpace (messages.map (fun m => m.content)))
  if strIncludes content (r"code") || strIncludes content (r"```") then "technical"
  else if strIncludes content (r"design") || strIncludes content (r"ui") || strIncludes content (r"ux") then "design"
  else if strIncludes content (r"business") || strIncludes content (r"strategy") then "business"
  else if strIncludes content (r"learning") || strIncludes content (r"tutorial") then "learning"
  else "general"

/-- `ConversationParser.parseChatGPT`. -/
def parseChatGPT (content : String) : ParsedConversation :=
  let messages := parseLines chatgptMatchLine (splitNl content) Role.user emptyS
  { title := deriveTitle (r"ChatGPT Conversation") messages
    source := ConversationSource.chatgpt
    messages := messages
    tags := parserExtractTags content
    category := some (categorizeMessages messages) }

/-- `ConversationParser.parseClaude`. -/
def parseClaude (content : String) : ParsedConversation :=
  let messages := parseLines claudeMatchLine (splitNl content) Role.user emptyS
  { title := deriveTitle (r"Claude Conversation") messages
    source := ConversationSource.claude
    messages := messages
    tags := parserExtractTags content
    category := some (categorizeMessages messages) }

/-- `ConversationParser.parseGemini`. -/
def parseGemini (content : String) : ParsedConversation :=
  let messages := parseLines geminiMatchLine (splitNl content) Role.user emptyS
  { title := deriveTitle (r"Gemini Conversation") messages
    source := ConversationSource.gemini
    messages := messages
    tags := parserExtractTags content
    category := some (categorizeMessages messages) }

/-- `ConversationParser.parsePerplexity`. -/
def parsePerplexity (content : String) : ParsedConversation :=
  let messages := parseLines perplexityMatchLine (splitNl content) Role.user emptyS
  { title := deriveTitle (r"Perplexity Conversation") messages
    source := ConversationSource.perplexity
    messages := messages
    tags := parserExtractTags content
    category := some (categorizeMessages messages) }

/-- `ConversationParser.parseCustom`. -/
def parseCustom (content : String) : ParsedConversation :=
  let messages := parseLines customMatchLine (splitNl content) Role.user emptyS
  { title := deriveTitle (r"Custom Conversation") messages
    source := ConversationSource.custom
    messages := messages
    tags := parserExtractTags content
    category := some (categorizeMessages messages) }

/-- The fingerprint patterns of `ConversationParser.sourcePatterns`, in
object insertion order; every regex is a case-insensitive literal
(`GPT-3\.5`'s escaped dot is the literal dot), kept lower-case here. -/
def chatgptPatterns : List String :=
  [r"chatgpt", r"openai", r"gpt-4", r"gpt-3.5", r"chat history"]

/-- Claude fingerprints. -/
def claudePatterns : List String := [r"claude", r"anthropic", r"claude-3", r"claude-2"]

/-- Gemini fingerprints. -/
def geminiPatterns : List String := [r"gemini", r"google ai", r"bard"]

/-- Perplexity fingerprints. -/
def perplexityPatterns : List String := [r"perplexity", r"perplexity ai"]

/-- `pattern.test(content)` for the case-insensitive literal patterns above
(`p` lower-case). -/
def ciTest (content p : String) : Bool := occursIn p.data (lowerStr content).data

/-- `ConversationParser.detectSource`: the first dialect (in registration
order) with any matching pattern wins; no match yields `custom`. -/
def detectSource (content : String) : ConversationSource :=
  if chatgptPatterns.any (ciTest content) then ConversationSource.chatgpt
  else if claudePatterns.any (ciTest content) then ConversationSource.claude
  else if geminiPatterns.any (ciTest content) then ConversationSource.gemini
  else if perplexityPatterns.any (ciTest content) then ConversationSource.perplexity
  else ConversationSource.custom

/-- `ConversationParser.parse`. -/
def parse (content : String) : ParsedConversation :=
  match detectSource content with
  | ConversationSource.chatgpt => parseChatGPT content
  | ConversationSource.claude => parseClaude content
  | ConversationSource.gemini => parseGemini content
  | ConversationSource.perplexity => parsePerplexity content
  | ConversationSource.custom => parseCustom content

/-! ## SmartHighlighter: span extractors -/

/-- The three-character code fence. -/
def fence3 : List Char := [btick, btick, btick]

/-- Decomposition at the first code fence: `splitFence l = some (pre, rest)`
with `l = pre ++ rest` and `rest` starting with three backticks. -/
def splitFence : List Char → Option (List Char × List Char)
  | [] => none
  | c :: rest =>
    if startsWithChars (c :: rest) fence3 then some ([], c :: rest)
    else (splitFence rest).map (fun p => (c :: p.1, p.2))

/-- The `codeBlockRegex.exec` loop (`/```[\s\S]*?```/g`), fuel-indexed: a
match starts at the first fence and ends at the first fence at least three
characters later (`[\s\S]*?` is lazy); scanning resumes after the match. -/
def codeScanF : Nat → List Char → Nat → List (Nat × List Char)
  | 0, _, _ => []
  | fuel + 1, l, base =>
    match splitFence l with
    | none => []
    | some pr =>
      match splitFence (pr.2.drop 3) with
      | none => []
      | some mr =>
        let m := fence3 ++ mr.1 ++ fence3
        (base + pr.1.length, m) ::
          codeScanF fuel (mr.2.drop 3) (base + pr.1.length + m.length)

/-- All matches of `codeBlockRegex` with their start indices. -/
def codeMatches (l : List Char) : List (Nat × List Char) := codeScanF l.length l 0

/-- `SmartHighlighter.extractCodeBlocks`. -/
def extractCodeBlocks (content : String) (messageIndex : Nat) : List Highlight :=
  (codeMatches content.data).map (fun sm =>
    { content := String.mk sm.2
      category := Category.code
      confidence_score := mkRat 9 10
      tags := [r"code"]
      notes := none
      position :=
        { messageIndex := (messageIndex : Int)
          startChar := (sm.1 : Int)
          endChar := ((sm.1 + sm.2.length : Nat) : Int) } })

/-- Sentence terminators of `questionRegex`'s class `[^.!?]`. -/
def isTermChar (c : Char) : Bool := c = '.' || c = '!' || c = '?'

/-- Decomposition at the first sentence terminator:
`splitAtTerm l = some (a, t, b)` with `l = a ++ t :: b`, `t` the first
terminator and `a` terminator-free. -/
def splitAtTerm : List Char → Option (List Char × Char × List Char)
  | [] => none
  | c :: rest =>
    if isTermChar c then some ([], c, rest)
    else (splitAtTerm rest).map (fun p => (c :: p.1, p.2.1, p.2.2))

/-- The `questionRegex.exec` loop (`/[^.!?]*\?/g`), fuel-indexed: a match
runs from the scan position to the first terminator when that terminator is
`?`; either way scanning resumes after the terminator. -/
def qScanF : Nat → List Char → Nat → List (Nat × List Char)
  | 0, _, _ => []
  | fuel + 1, l, base =>
    match splitAtTerm l with
    | none => []
    | some atb =>
      if atb.2.1 = '?' then
        (base, atb.1 ++ [atb.2.1]) :: qScanF fuel atb.2.2 (base + atb.1.length + 1)
      else qScanF fuel atb.2.2 (base + atb.1.length + 1)

/-- All matches of `questionRegex` with their start indices. -/
def qMatches (l : List Char) : List (Nat × List Char) := qScanF l.length l 0

/-- `SmartHighlighter.extractQuestions`: matches kept only when the trimmed
text has length strictly between 10 and 200. -/
def extractQuestions (content : String) (messageIndex : Nat) : List Highlight :=
  (qMatches content.data).filterMap (fun sm =>
    let question := trimChars sm.2
    if 10 < question.length ∧ question.length < 200 then
      some
        { content := String.mk question
          category := Category.question
          confidence_score := mkRat 7 10
          tags := [r"question"]
          notes := none
          position :=
            { messageIndex := (messageIndex : Int)
              startChar := (sm.1 : Int)
              endChar := ((sm.1 + sm.2.length : Nat) : Int) } }
    else none)

/-- Characters matched by `.` (no `s` flag): anything but a line
terminator. -/
def dotChar (c : Char) : Bool :=
  !(c = '\n' || c = '\r' || c.toNat = 0x2028 || c.toNat = 0x2029)

/-- Length of the leading `\s` run. -/
def wsRunLen : List Char → Nat
  | [] => 0
  | c :: rest => if isJsWs c then wsRunLen rest + 1 else 0

/-- Length of the leading `.`-matchable run. -/
def dotRunLen : List Char → Nat
  | [] => 0
  | c :: rest => if dotChar c then dotRunLen rest + 1 else 0

/-- Attempt `(.+?)(?:\n|$)` after `\s*` has consumed exactly `w` characters:
the lazy group stops at the first position where `\n` or the end of input
follows, which is the end of the leading `.`-run. -/
def tryTailAt (rest : List Char) (w : Nat) : Option (Nat × List Char) :=
  let r := rest.drop w
  let k := dotRunLen r
  if 1 ≤ k then
    if k = r.length then some (w + k, r.take k)
    else if (r.drop k).headD ' ' = '\n' then some (w + k + 1, r.take k)
    else none
  else none

/-- Backtracking of the greedy `\s*` before `(.+?)`: longest whitespace
prefix first, shrinking on failure. -/
def tryTailFrom (rest : List Char) : Nat → Option (Nat × List Char)
  | 0 => tryTailAt rest 0
  | w + 1 =>
    match tryTailAt rest (w + 1) with
    | some res => some res
    | none => tryTailFrom rest w

/-- Matches `\s*(.+?)(?:\n|$)` at the head of `rest`, returning the consumed
length and the capture. -/
def tryTail (rest : List Char) : Option (Nat × List Char) :=
  tryTailFrom rest (wsRunLen rest)

/-- The action-item markers, lower-case, in the alternation order of
`actionItemRegex`.  No two can match at the same position, so the
alternation needs no backtracking. -/
def actionKeywords : List (List Char) :=
  [String.data (r"todo"), String.data (r"task"), String.data (r"action"),
   String.data (r"next step"), String.data (r"future"), String.data (r"plan")]

/-- `(?:TODO|TASK|ACTION|NEXT STEP|FUTURE|PLAN)` case-insensitively: the
length of the keyword matching at the head, if any. -/
def matchKeywordIn : List (List Char) → List Char → Option Nat
  | [], _ => none
  | kw :: rest, r => if startsWithCIChars r kw then some kw.length else matchKeywordIn rest r

/-- Keyword alternation at the head of `r`. -/
def matchKeyword (r : List Char) : Option Nat := matchKeywordIn actionKeywords r

/-- `:?\s*(.+?)(?:\n|$)`: the greedy optional colon is consumed when
present; if the rest then fails, backtracking retries without it. -/
def afterKeyword (r : List Char) : Option (Nat × List Char) :=
  match r with
  | [] => none
  | c :: rest =>
    if c = ':' then
      match tryTail rest with
      | some nc => some (nc.1 + 1, nc.2)
      | none => tryTail (c :: rest)
    else tryTail (c :: rest)

/-- Bullet characters of `(?:[-*]\s*|•\s*)?`. -/
def bulletChar (c : Char) : Bool := c = '-' || c = '*' || c = '•'

/-- Keyword, optional colon, tail. -/
def matchCore (s : List Char) : Option (Nat × List Char) :=
  match matchKeyword s with
  | none => none
  | some kl =>
    match afterKeyword (s.drop kl) with
    | none => none
    | some nc => some (kl + nc.1, nc.2)

/-- The body of `actionItemRegex` after `(?:^|\n)`: optional bullet, then
keyword, colon, tail.  When the head is a bullet the bullet alternative
must be taken (no keyword starts with a bullet character) and its `\s*`
must be consumed entirely (no keyword starts with whitespace), so no
further backtracking arises. -/
def matchBodyAt (r : List Char) : Option (Nat × List Char) :=
  match r with
  | [] => none
  | c :: rest =>
    if bulletChar c then
      match matchCore (rest.drop (wsRunLen rest)) with
      | none => none
      | some nc => some (1 + wsRunLen rest + nc.1, nc.2)
    else matchCore (c :: rest)

/-- The `actionItemRegex.exec` loop away from index 0, fuel-indexed: a new
match may start only at a newline, which `(?:^|\n)` consumes; emitted
triples are (match index, match length, capture). -/
def actionScanNlF : Nat → List Char → Nat → List (Nat × Nat × List Char)
  | 0, _, _ => []
  | _ + 1, [], _ => []
  | fuel + 1, c :: rest, base =>
    if c = '\n' then
      match matchBodyAt rest with
      | some nc =>
        (base, 1 + nc.1, nc.2) :: actionScanNlF fuel (rest.drop nc.1) (base + 1 + nc.1)
      | none => actionScanNlF fuel rest (base + 1)
    else actionScanNlF fuel rest (base + 1)

/-- All matches of `actionItemRegex` (index, length, capture): the
zero-width `^` applies only at index 0; afterwards matches anchor at
newlines. -/
def actionMatches (l : List Char) : List (Nat × Nat × List Char) :=
  match matchBodyAt l with
  | some nc => (0, nc.1, nc.2) :: actionScanNlF l.length (l.drop nc.1) nc.1
  | none => actionScanNlF l.length l 0

/-- `SmartHighlighter.extractActionItems`.  `content` is the *trimmed
capture group* (`match[1].trim()`) while the position covers the whole
match `match[0]` (including any leading newline, bullet and the marker). -/
def extractActionItems (content : String) (messageIndex : Nat) : List Highlight :=
  (actionMatches content.data).map (fun t =>
    { content := String.mk (trimChars t.2.2)
      category := Category.action_item
      confidence_score := mkRat 8 10
      tags := [r"action", r"todo"]
      notes := none
      position :=
        { messageIndex := (messageIndex : Int)
          startChar := (t.1 : Int)
          endChar := ((t.1 + t.2.1 : Nat) : Int) } })

/-! ## SmartHighlighter: classifier -/

/-- The per-message extractor loop of `fallbackCategorization`: extractors
run only on assistant messages, but the index counts every message. -/
def fallbackHighlightsFrom : List ParsedMessage → Nat → List Highlight
  | [], _ => []
  | m :: rest, i =>
    (if m.role = Role.assistant then
      extractCodeBlocks m.content i ++ extractActionItems m.content i ++ extractQuestions m.content i
    else []) ++ fallbackHighlightsFrom rest (i + 1)

/-- `SmartHighlighter.generateFallbackSummary`. -/
def generateFallbackSummary (conversation : ParsedConversation) : String :=
  let userMessages := conversation.messages.filter (fun m => decide (m.role = Role.user))
  let assistantMessages := conversation.messages.filter (fun m => decide (m.role = Role.assistant))
  "Conversation about " ++ conversation.title ++ " with " ++ toString userMessages.length ++
    " user questions and " ++ toString assistantMessages.length ++ " AI responses."

/-- `SmartHighlighter.extractKeyTopics`. -/
def extractKeyTopics (conversation : ParsedConversation) : List String :=
  let content := lowerStr (joinSpace (conversation.messages.map (fun m => m.content)))
  let topics :=
    (if strIncludes content (r"react") || strIncludes content (r"frontend") then [r"Frontend Development"] else []) ++
    (if strIncludes content (r"api") || strIncludes content (r"backend") then [r"Backend Development"] else []) ++
    (if strIncludes content (r"database") || strIncludes content (r"sql") then [r"Database"] else []) ++
    (if strIncludes content (r"deployment") || strIncludes content (r"docker") then [r"Deployment"] else []) ++
    (if strIncludes content (r"testing") || strIncludes content (r"test") then [r"Testing"] else []) ++
    (if strIncludes content (r"security") || strIncludes content (r"auth") then [r"Security"] else [])
  if topics.isEmpty then [r"General Discussion"] else topics

/-- `SmartHighlighter.fallbackCategorization`. -/
def fallbackCategorization (conversation : ParsedConversation) : CategorizationResult :=
  let highlights := fallbackHighlightsFrom conversation.messages 0
  { highlights := highlights
    summary := generateFallbackSummary conversation
    key_topics := extractKeyTopics conversation
    action_items := (highlights.filter (fun h => decide (h.category = Category.action_item))).map (fun h => h.content)
    resources := (highlights.filter (fun h => decide (h.category = Category.resource))).map (fun h => h.content)
    questions := (highlights.filter (fun h => decide (h.category = Category.question))).map (fun h => h.content) }

/-- `SmartHighlighter.validateHighlight`: a total boolean predicate.  The
source indexes `conversation.messages[messageIndex]` only after the range
check, so the `none` branch of `get?` below is unreachable. -/
def validateHighlight (highlight : Highlight) (conversation : ParsedConversation) : Bool :=
  if highlight.position.messageIndex < 0 ∨
      (conversation.messages.length : Int) ≤ highlight.position.messageIndex then false
  else
    match conversation.messages.get? highlight.position.messageIndex.toNat with
    | none => false
    | some message =>
      if highlight.position.startChar < 0 ∨
          (strLen message.content : Int) < highlight.position.endChar ∨
          highlight.position.endChar ≤ highlight.position.startChar then false
      else
        decide (jsTrim (subChars message.content highlight.position.startChar.toNat
          highlight.position.endChar.toNat) = jsTrim highlight.content)

/-- The tags appended by `enhanceHighlight`, in push order. -/
def enhanceAdds (content : String) : List String :=
  (if strIncludes content (r"```") then [r"code"] else []) ++
  (if strIncludes content (r"http") then [r"link"] else []) ++
  (if strIncludes content (r"?") then [r"question"] else []) ++
  (if strIncludes (lowerStr content) (r"todo") || strIncludes (lowerStr content) (r"task") then [r"todo"] else [])

/-- `SmartHighlighter.enhanceHighlight` (the `conversation` parameter of the
source is unused): augment tags from content signatures, deduplicate, and
clamp the score from above by 1. -/
def enhanceHighlight (highlight : Highlight) : Highlight :=
  { highlight with
    tags := dedupTags (highlight.tags ++ enhanceAdds highlight.content)
    confidence_score := min highlight.confidence_score 1 }

/-- `SmartHighlighter.validateAndEnhanceResult`. -/
def validateAndEnhanceResult (result : OracleResult) (conversation : ParsedConversation) :
    CategorizationResult :=
  let validatedHighlights :=
    (result.highlights.filter (fun h => validateHighlight h conversation)).map enhanceHighlight
  { highlights := validatedHighlights
    summary := if result.summary = emptyS then generateFallbackSummary conversation else result.summary
    key_topics := result.key_topics.getD []
    action_items := result.action_items.getD []
    resources := result.resources.getD []
    questions := result.questions.getD [] }

/-- `SmartHighlighter.categorizeConversation`, with the OpenAI call
abstracted into an `OracleOutcome` and the `JSON.parse`-plus-shape-check
step into `parseResponse` (`none` models any parse or shape failure; all of
them are caught by the source).  Every failure path returns the
deterministic fallback; no error escapes to the caller. -/
def categorizeConversation (parseResponse : String → Option OracleResult)
    (outcome : OracleOutcome) (conversation : ParsedConversation) : CategorizationResult :=
  match outcome with
  | OracleOutcome.noOracle => fallbackCategorization conversation
  | OracleOutcome.transportError => fallbackCategorization conversation
  | OracleOutcome.reply none => fallbackCategorization conversation
  | OracleOutcome.reply (some content) =>
    if content = emptyS then fallbackCategorization conversation
    else
      match parseResponse content with
      | none => fallbackCategorization conversation
      | some result => validateAndEnhanceResult result conversation

/-- `SmartHighlighter.enhanceHighlightsWithAI`: on success every returned
highlight's score is clamped from above by 1; on any failure the input is
returned unchanged. -/
def enhanceHighlightsWithAI (parseHighlights : String → Option (List Highlight))
    (outcome : OracleOutcome) (highlights : List Highlight) : List Highlight :=
  match outcome with
  | OracleOutcome.noOracle => highlights
  | OracleOutcome.transportError => highlights
  | OracleOutcome.reply none => highlights
  | OracleOutcome.reply (some content) =>
    if content = emptyS then highlights
    else
      match parseHighlights content with
      | none => highlights
      | some enhanced => enhanced.map (fun h => { h with confidence_score := min h.confidence_score 1 })

/-- The round-trip position-integrity check of the specification:
`conversation.messages[h.position.messageIndex].content
  .substring(h.position.startChar, h.position.endChar).trim() == h.content.trim()`. -/
def roundTrip (conversation : ParsedConversation) (h : Highlight) : Bool :=
  match conversation.messages.get? h.position.messageIndex.toNat with
  | none => false
  | some m =>
    decide (jsTrim (subChars m.content h.position.startChar.toNat h.position.endChar.toNat) =
      jsTrim h.content)

/-! ## Helper lemmas: slices and trimming -/

theorem drop_len_add (a b : List Char) (n : Nat) :
    (a ++ b).drop (a.length + n) = b.drop n := by
  induction a with
  | nil => simp
  | cons c cs ih => simp [Nat.succ_add, ih]

theorem sliceL_middle (pre m post : List Char) :
    sliceL (pre ++ (m ++ post)) pre.length (pre.length + m.length) = m := by
  unfold sliceL
  rw [show pre.length + m.length - pre.length = m.length from by omega,
    List.drop_left, List.take_left]

theorem sliceL_shift (pre rest : List Char) (k n : Nat) :
    sliceL (pre ++ rest) (pre.length + k) (pre.length + k + n) = sliceL rest k (k + n) := by
  unfold sliceL
  rw [show pre.length + k + n - (pre.length + k) = n from by omega,
    show k + n - k = n from by omega, drop_len_add]

theorem dropWhile_head_false {p : Char → Bool} :
    ∀ {l : List Char} {c : Char} {t : List Char}, l.dropWhile p = c :: t → p c = false := by
  intro l
  induction l with
  | nil => intro c t h; simp [List.dropWhile] at h
  | cons d rest ih =>
    intro c t h
    rw [List.dropWhile_cons] at h
    by_cases hd : p d
    · exact ih (by simpa [hd] using h)
    · rw [if_neg hd] at h
      cases h
      simpa using hd

theorem dropTrail_cons_shape (c : Char) (rest : List Char) :
    dropTrail (c :: rest) = [] ∨ ∃ r, dropTrail (c :: rest) = c :: r := by
  rw [dropTrail]
  cases h : dropTrail rest with
  | nil =>
    by_cases hc : isJsWs c
    · simp [hc]
    · exact Or.inr ⟨[], by simp [hc]⟩
  | cons y ys => exact Or.inr ⟨y :: ys, rfl⟩

theorem dropTrail_idem (l : List Char) : dropTrail (dropTrail l) = dropTrail l := by
  induction l with
  | nil => rfl
  | cons c rest ih =>
    cases h : dropTrail rest with
    | nil =>
      by_cases hc : isJsWs c
      · simp [dropTrail, h, hc]
      · simp [dropTrail, h, hc]
    | cons y ys =>
      rw [h] at ih
      have h3 : dropTrail (c :: rest) = c :: y :: ys := by rw [dropTrail, h]
      have h4 : dropTrail (c :: y :: ys) = c :: y :: ys := by rw [dropTrail, ih]
      rw [h3, h4]

theorem dropWhile_dropTrail_dropWhile (l : List Char) :
    List.dropWhile isJsWs (dropTrail (List.dropWhile isJsWs l)) =
      dropTrail (List.dropWhile isJsWs l) := by
  cases h : List.dropWhile isJsWs l with
  | nil => simp [dropTrail]
  | cons c t =>
    have hc : isJsWs c = false := dropWhile_head_false h
    rcases dropTrail_cons_shape c t with h2 | ⟨r, h2⟩
    · rw [h2]; rfl
    · rw [h2, List.dropWhile_cons]; simp [hc]

theorem trimChars_idem (l : List Char) : trimChars (trimChars l) = trimChars l := by
  unfold trimChars
  rw [dropWhile_dropTrail_dropWhile, dropTrail_idem]

theorem jsTrim_mk (m : List Char) : jsTrim (String.mk m) = String.mk (trimChars m) := rfl

theorem jsTrim_trim_mk (m : List Char) :
    jsTrim (String.mk (trimChars m)) = jsTrim (String.mk m) := by
  simp [jsTrim, trimChars_idem]

/-! ## Helper lemmas: scanner soundness -/

theorem splitAtTerm_eq :
    ∀ (l : List Char) (a : List Char) (t : Char) (b : List Char),
      splitAtTerm l = some (a, t, b) → l = a ++ t :: b := by
  intro l
  induction l with
  | nil => intro a t b h; simp [splitAtTerm] at h
  | cons c rest ih =>
    intro a t b h
    by_cases hc : isTermChar c
    · rw [splitAtTerm, if_pos hc] at h
      obtain ⟨rfl, rfl, rfl⟩ := by simpa using h
      rfl
    · rw [splitAtTerm, if_neg hc] at h
      rw [Option.map_eq_some'] at h
      obtain ⟨p, hrest, heq⟩ := h
      obtain ⟨a', t', b'⟩ := p
      cases heq
      simp [ih a' t' b' hrest]

theorem qScanF_sound :
    ∀ (fuel : Nat) (l : List Char) (base s : Nat) (m : List Char),
      (s, m) ∈ qScanF fuel l base →
      ∃ k, s = base + k ∧ k + m.length ≤ l.length ∧ sliceL l k (k + m.length) = m := by
  intro fuel
  induction fuel with
  | zero => intro l base s m h; simp [qScanF] at h
  | succ fuel ih =>
    intro l base s m h
    rw [qScanF] at h
    cases hs : splitAtTerm l with
    | none => rw [hs] at h; simp at h
    | some atb =>
      rw [hs] at h
      obtain ⟨a, t, b⟩ := atb
      dsimp only at h
      have hl : l = a ++ t :: b := splitAtTerm_eq l a t b hs
      have hlen : l.length = a.length + 1 + b.length := by
        rw [hl]; simp; omega
      have hcons : l = (a ++ [t]) ++ b := by rw [hl]; simp
      by_cases ht : t = '?'
      · rw [if_pos ht] at h
        rcases List.mem_cons.mp h with hhead | htail
        · obtain ⟨rfl, rfl⟩ := by simpa using hhead
          refine ⟨0, by omega, ?_, ?_⟩
          · simp only [List.length_append, List.length_cons, List.length_nil, hlen]
            omega
          · have h5 := sliceL_middle [] (a ++ [t]) b
            simpa [hcons] using h5
        · obtain ⟨k', rfl, hk2, hk3⟩ := ih b (base + a.length + 1) s m htail
          refine ⟨a.length + 1 + k', by omega, by omega, ?_⟩
          have hpre : (a ++ [t]).length = a.length + 1 := by simp
          calc sliceL l (a.length + 1 + k') (a.length + 1 + k' + m.length)
              = sliceL ((a ++ [t]) ++ b) ((a ++ [t]).length + k')
                  ((a ++ [t]).length + k' + m.length) := by rw [hcons, hpre]
            _ = sliceL b k' (k' + m.length) := sliceL_shift (a ++ [t]) b k' m.length
            _ = m := hk3
      · rw [if_neg ht] at h
        obtain ⟨k', rfl, hk2, hk3⟩ := ih b (base + a.length + 1) s m h
        refine ⟨a.length + 1 + k', by omega, by omega, ?_⟩
        have hpre : (a ++ [t]).length = a.length + 1 := by simp
        calc sliceL l (a.length + 1 + k') (a.length + 1 + k' + m.length)
            = sliceL ((a ++ [t]) ++ b) ((a ++ [t]).length + k')
                ((a ++ [t]).length + k' + m.length) := by rw [hcons, hpre]
          _ = sliceL b k' (k' + m.length) := sliceL_shift (a ++ [t]) b k' m.length
          _ = m := hk3

theorem startsWith_fence3_shape :
    ∀ {b : List Char}, startsWithChars b fence3 = true →
      ∃ t, b = btick :: btick :: btick :: t := by
  intro b h
  match b with
  | [] => simp [startsWithChars, fence3] at h
  | [c1] => simp [startsWithChars, fence3] at h
  | [c1, c2] => simp [startsWithChars, fence3] at h
  | c1 :: c2 :: c3 :: t =>
    simp [startsWithChars, fence3] at h
    obtain ⟨h1, h2, h3⟩ := h
    exact ⟨t, by rw [h1, h2, h3]⟩

theorem splitFence_eq :
    ∀ (l pre rest : List Char), splitFence l = some (pre, rest) →
      l = pre ++ rest ∧ ∃ t, rest = btick :: btick :: btick :: t := by
  intro l
  induction l with
  | nil => intro pre rest h; simp [splitFence] at h
  | cons c cs ih =>
    intro pre rest h
    by_cases hf : startsWithChars (c :: cs) fence3
    · rw [splitFence, if_pos hf] at h
      obtain ⟨rfl, rfl⟩ := by simpa using h
      exact ⟨rfl, startsWith_fence3_shape hf⟩
    · rw [splitFence, if_neg hf] at h
      rw [Option.map_eq_some'] at h
      obtain ⟨p, hrest, heq⟩ := h
      obtain ⟨pre', rest'⟩ := p
      cases heq
      obtain ⟨h1, h2⟩ := ih pre' rest' hrest
      exact ⟨by simp [h1], h2⟩

theorem codeScanF_sound :
    ∀ (fuel : Nat) (l : List Char) (base s : Nat) (m : List Char),
      (s, m) ∈ codeScanF fuel l base →
      ∃ k, s = base + k ∧ k + m.length ≤ l.length ∧ sliceL l k (k + m.length) = m := by
  intro fuel
  induction fuel with
  | zero => intro l base s m h; simp [codeScanF] at h
  | succ fuel ih =>
    intro l base s m h
    rw [codeScanF] at h
    cases hs : splitFence l with
    | none => rw [hs] at h; simp at h
    | some pr =>
      rw [hs] at h
      obtain ⟨pre, rest⟩ := pr
      dsimp only at h
      obtain ⟨hl, t1, ht1⟩ := splitFence_eq l pre rest hs
      have hdrop3 : rest.drop 3 = t1 := by rw [ht1]; rfl
      rw [hdrop3] at h
      cases hs2 : splitFence t1 with
      | none => rw [hs2] at h; simp at h
      | some mr =>
        rw [hs2] at h
        obtain ⟨mid, rest2⟩ := mr
        dsimp only at h
        obtain ⟨hl2, t2, ht2⟩ := splitFence_eq t1 mid rest2 hs2
        have hdrop3b : rest2.drop 3 = t2 := by rw [ht2]; rfl
        rw [hdrop3b] at h
        have hm : l = pre ++ ((fence3 ++ mid ++ fence3) ++ t2) := by
          rw [hl, ht1, hl2, ht2]; simp [fence3]
        have hlen : l.length = pre.length + (fence3 ++ mid ++ fence3).length + t2.length := by
          rw [hm, List.length_append, List.length_append]; omega
        rcases List.mem_cons.mp h with hhead | htail
        · rw [Prod.mk.injEq] at hhead
          obtain ⟨rfl, rfl⟩ := hhead
          refine ⟨pre.length, rfl, by omega, ?_⟩
          have h5 := sliceL_middle pre (fence3 ++ mid ++ fence3) t2
          rw [hm]
          exact h5
        · obtain ⟨k', rfl, hk2, hk3⟩ :=
            ih t2 (base + pre.length + (fence3 ++ mid ++ fence3).length) s m htail
          refine ⟨pre.length + (fence3 ++ mid ++ fence3).length + k', by omega, by omega, ?_⟩
          have hpm : (pre ++ (fence3 ++ mid ++ fence3)).length =
              pre.length + (fence3 ++ mid ++ fence3).length := by simp
          have hcons2 : l = (pre ++ (fence3 ++ mid ++ fence3)) ++ t2 := by
            rw [hm]; simp
          calc sliceL l (pre.length + (fence3 ++ mid ++ fence3).length + k')
                (pre.length + (fence3 ++ mid ++ fence3).length + k' + m.length)
              = sliceL ((pre ++ (fence3 ++ mid ++ fence3)) ++ t2)
                  ((pre ++ (fence3 ++ mid ++ fence3)).length + k')
                  ((pre ++ (fence3 ++ mid ++ fence3)).length + k' + m.length) := by
                rw [hcons2, hpm]
            _ = sliceL t2 k' (k' + m.length) :=
                sliceL_shift (pre ++ (fence3 ++ mid ++ fence3)) t2 k' m.length
            _ = m := hk3

theorem codeMatches_slice {l : List Char} {s : Nat} {m : List Char}
    (h : (s, m) ∈ codeMatches l) :
    s + m.length ≤ l.length ∧ sliceL l s (s + m.length) = m := by
  obtain ⟨k, hk0, hk1, hk2⟩ := codeScanF_sound l.length l 0 s m h
  have hsk : s = k := by omega
  subst hsk
  exact ⟨hk1, hk2⟩

theorem qMatches_slice {l : List Char} {s : Nat} {m : List Char}
    (h : (s, m) ∈ qMatches l) :
    s + m.length ≤ l.length ∧ sliceL l s (s + m.length) = m := by
  obtain ⟨k, hk0, hk1, hk2⟩ := qScanF_sound l.length l 0 s m h
  have hsk : s = k := by omega
  subst hsk
  exact ⟨hk1, hk2⟩

/-! ## Helper lemmas: extractor structure -/

theorem extractCodeBlocks_mem {c : String} {i : Nat} {h : Highlight}
    (hm : h ∈ extractCodeBlocks c i) :
    h.category = Category.code ∧ ∃ s mtext, (s, mtext) ∈ codeMatches c.data ∧
      h.content = String.mk mtext ∧
      h.position = ⟨(i : Int), (s : Int), ((s + mtext.length : Nat) : Int)⟩ := by
  unfold extractCodeBlocks at hm
  rw [List.mem_map] at hm
  obtain ⟨⟨s, mtext⟩, hmem, rfl⟩ := hm
  exact ⟨rfl, s, mtext, hmem, rfl, rfl⟩

theorem extractQuestions_mem {c : String} {i : Nat} {h : Highlight}
    (hm : h ∈ extractQuestions c i) :
    h.category = Category.question ∧ ∃ s mtext, (s, mtext) ∈ qMatches c.data ∧
      h.content = String.mk (trimChars mtext) ∧
      h.position = ⟨(i : Int), (s : Int), ((s + mtext.length : Nat) : Int)⟩ := by
  simp only [extractQuestions, List.mem_filterMap] at hm
  obtain ⟨⟨s, mtext⟩, hmem, hf⟩ := hm
  split at hf
  · injection hf with hf
    subst hf
    exact ⟨rfl, s, mtext, hmem, rfl, rfl⟩
  · exact absurd hf (by simp)

theorem extractActionItems_mem {c : String} {i : Nat} {h : Highlight}
    (hm : h ∈ extractActionItems c i) : h.category = Category.action_item := by
  simp only [extractActionItems, List.mem_map] at hm
  obtain ⟨t, hmem, rfl⟩ := hm
  rfl

/-! ## Helper lemmas: round-trip integrity -/

theorem roundTrip_eq_true_of {conv : ParsedConversation} {h : Highlight} {j a b : Nat}
    {msg : ParsedMessage}
    (hpos : h.position = ⟨(j : Int), (a : Int), (b : Int)⟩)
    (hj : conv.messages.get? j = some msg)
    (htrim : jsTrim (subChars msg.content a b) = jsTrim h.content) :
    roundTrip conv h = true := by
  unfold roundTrip
  rw [hpos]
  dsimp only
  simp only [Int.toNat_natCast]
  rw [hj]
  exact decide_eq_true htrim

theorem roundTrip_of_code {conv : ParsedConversation} {j : Nat} {msg : ParsedMessage}
    (hj : conv.messages.get? j = some msg) {h : Highlight}
    (hm : h ∈ extractCodeBlocks msg.content j) : roundTrip conv h = true := by
  obtain ⟨-, s, mtext, hmem, hcontent, hpos⟩ := extractCodeBlocks_mem hm
  obtain ⟨hle, hslice⟩ := codeMatches_slice hmem
  refine roundTrip_eq_true_of hpos hj ?_
  unfold subChars
  rw [hslice, hcontent]

theorem roundTrip_of_question {conv : ParsedConversation} {j : Nat} {msg : ParsedMessage}
    (hj : conv.messages.get? j = some msg) {h : Highlight}
    (hm : h ∈ extractQuestions msg.content j) : roundTrip conv h = true := by
  obtain ⟨-, s, mtext, hmem, hcontent, hpos⟩ := extractQuestions_mem hm
  obtain ⟨hle, hslice⟩ := qMatches_slice hmem
  refine roundTrip_eq_true_of hpos hj ?_
  unfold subChars
  rw [hslice, hcontent]
  exact (jsTrim_trim_mk mtext).symm

/-! ## Helper lemmas: the fallback path -/

theorem fallbackHighlightsFrom_mem :
    ∀ (msgs : List ParsedMessage) (base : Nat) (h : Highlight),
      h ∈ fallbackHighlightsFrom msgs base →
      ∃ j msg, msgs.get? j = some msg ∧ msg.role = Role.assistant ∧
        (h ∈ extractCodeBlocks msg.content (base + j) ∨
         h ∈ extractActionItems msg.content (base + j) ∨
         h ∈ extractQuestions msg.content (base + j)) := by
  intro msgs
  induction msgs with
  | nil => intro base h hm; simp [fallbackHighlightsFrom] at hm
  | cons m rest ih =>
    intro base h hm
    rw [fallbackHighlightsFrom, List.mem_append] at hm
    rcases hm with hm | hm
    · by_cases hrole : m.role = Role.assistant
      · rw [if_pos hrole, List.mem_append, List.mem_append] at hm
        refine ⟨0, m, rfl, hrole, ?_⟩
        rw [Nat.add_zero]
        tauto
      · rw [if_neg hrole] at hm; simp at hm
    · obtain ⟨j, msg, hj, hrole, hcase⟩ := ih (base + 1) h hm
      refine ⟨j + 1, msg, by simpa using hj, hrole, ?_⟩
      have harith : base + 1 + j = base + (j + 1) := by omega
      rw [← harith]
      exact hcase

theorem fallback_roundTrip_helper {conv : ParsedConversation} {h : Highlight}
    (hm : h ∈ (fallbackCategorization conv).highlights)
    (hcat : h.category ≠ Category.action_item) : roundTrip conv h = true := by
  have hm' : h ∈ fallbackHighlightsFrom conv.messages 0 := hm
  obtain ⟨j, msg, hj, -, hcase⟩ := fallbackHighlightsFrom_mem conv.messages 0 h hm'
  rw [Nat.zero_add] at hcase
  rcases hcase with hc | hc | hc
  · exact roundTrip_of_code hj hc
  · exact absurd (extractActionItems_mem hc) hcat
  · exact roundTrip_of_question hj hc

theorem fallback_category_helper {conv : ParsedConversation} {h : Highlight}
    (hm : h ∈ (fallbackCategorization conv).highlights) :
    h.category = Category.code ∨ h.category = Category.action_item ∨
      h.category = Category.question := by
  have hm' : h ∈ fallbackHighlightsFrom conv.messages 0 := hm
  obtain ⟨j, msg, hj, -, hcase⟩ := fallbackHighlightsFrom_mem conv.messages 0 h hm'
  rcases hcase with hc | hc | hc
  · exact Or.inl (extractCodeBlocks_mem hc).1
  · exact Or.inr (Or.inl (extractActionItems_mem hc))
  · exact Or.inr (Or.inr (extractQuestions_mem hc).1)

/-! ## Helper lemmas: the validator -/

theorem validateHighlight_true_iff (h : Highlight) (conv : ParsedConversation) :
    validateHighlight h conv = true ↔
      ∃ msg, 0 ≤ h.position.messageIndex ∧
        conv.messages.get? h.position.messageIndex.toNat = some msg ∧
        0 ≤ h.position.startChar ∧ h.position.startChar < h.position.endChar ∧
        h.position.endChar ≤ (strLen msg.content : Int) ∧
        jsTrim (subChars msg.content h.position.startChar.toNat h.position.endChar.toNat) =
          jsTrim h.content := by
  constructor
  · intro hv
    rw [validateHighlight] at hv
    split at hv
    · simp at hv
    · rename_i hguard
      split at hv
      · simp at hv
      · rename_i msg hget
        split at hv
        · simp at hv
        · rename_i hbounds
          push_neg at hguard hbounds
          exact ⟨msg, by omega, hget, by omega, by omega, by omega, of_decide_eq_true hv⟩
  · rintro ⟨msg, h0, hget, hsc, hlt, hle, htrim⟩
    rw [validateHighlight]
    have hlen : h.position.messageIndex.toNat < conv.messages.length := by
      rcases List.get?_eq_some.mp hget with ⟨hlt', -⟩
      exact hlt'
    have hmi : h.position.messageIndex < (conv.messages.length : Int) := by
      rw [← Int.toNat_of_nonneg h0]
      exact_mod_cast hlen
    rw [if_neg (by omega)]
    simp only [hget]
    rw [if_neg (by omega)]
    exact decide_eq_true htrim

theorem validate_roundTrip {h : Highlight} {conv : ParsedConversation}
    (hv : validateHighlight h conv = true) : roundTrip conv h = true := by
  obtain ⟨msg, h0, hget, -, -, -, htrim⟩ := (validateHighlight_true_iff h conv).mp hv
  unfold roundTrip
  rw [hget]
  exact decide_eq_true htrim

theorem validateAndEnhance_highlights_mem {r : OracleResult} {conv : ParsedConversation}
    {h : Highlight} (hm : h ∈ (validateAndEnhanceResult r conv).highlights) :
    ∃ h0, h0 ∈ r.highlights ∧ validateHighlight h0 conv = true ∧ h = enhanceHighlight h0 := by
  have hm' : h ∈ (r.highlights.filter (fun x => validateHighlight x conv)).map enhanceHighlight := hm
  rw [List.mem_map] at hm'
  obtain ⟨h0, hmem, rfl⟩ := hm'
  rw [List.mem_filter] at hmem
  exact ⟨h0, hmem.1, hmem.2, rfl⟩

/-! ## Helper lemmas: enhancement -/

theorem enhanceHighlight_content (h : Highlight) : (enhanceHighlight h).content = h.content := rfl

theorem enhanceHighlight_category (h : Highlight) : (enhanceHighlight h).category = h.category := rfl

theorem enhanceHighlight_notes (h : Highlight) : (enhanceHighlight h).notes = h.notes := rfl

theorem enhanceHighlight_position (h : Highlight) : (enhanceHighlight h).position = h.position := rfl

theorem enhanceHighlight_tags (h : Highlight) :
    (enhanceHighlight h).tags = dedupTags (h.tags ++ enhanceAdds h.content) := rfl

theorem enhanceHighlight_score (h : Highlight) :
    (enhanceHighlight h).confidence_score = min h.confidence_score 1 := rfl

theorem roundTrip_enhance (conv : ParsedConversation) (h : Highlight) :
    roundTrip conv (enhanceHighlight h) = roundTrip conv h := rfl

theorem mem_dedupAcc {a : String} :
    ∀ (l seen : List String), a ∈ l → a ∉ seen → a ∈ dedupAcc seen l := by
  intro l
  induction l with
  | nil => intro seen hmem _; simp at hmem
  | cons x xs ih =>
    intro seen hmem hns
    rw [dedupAcc]
    by_cases hx : x ∈ seen
    · rw [if_pos hx]
      rcases List.mem_cons.mp hmem with rfl | hmem'
      · exact absurd hx hns
      · exact ih seen hmem' hns
    · rw [if_neg hx]
      rcases List.mem_cons.mp hmem with rfl | hmem'
      · exact List.mem_cons_self _ _
      · by_cases hxs : a ∈ x :: seen
        · rcases List.mem_cons.mp hxs with rfl | h2
          · exact List.mem_cons_self _ _
          · exact absurd h2 hns
        · exact List.mem_cons_of_mem _ (ih (x :: seen) hmem' hxs)

theorem dedupAcc_all_seen :
    ∀ (l seen : List String), (∀ a ∈ l, a ∈ seen) → dedupAcc seen l = [] := by
  intro l
  induction l with
  | nil => intro seen _; rfl
  | cons x xs ih =>
    intro seen hall
    rw [dedupAcc, if_pos (hall x (List.mem_cons_self x xs))]
    exact ih seen (fun a ha => hall a (List.mem_cons_of_mem x ha))

theorem dedupAcc_append_absorbed :
    ∀ (X A seen : List String), (∀ a ∈ A, a ∈ X ∨ a ∈ seen) →
      dedupAcc seen (X ++ A) = dedupAcc seen X := by
  intro X
  induction X with
  | nil =>
    intro A seen hA
    have hall : ∀ a ∈ A, a ∈ seen := by
      intro a ha
      exact (hA a ha).resolve_left (by simp)
    simpa using dedupAcc_all_seen A seen hall
  | cons x xs ih =>
    intro A seen hA
    by_cases hx : x ∈ seen
    · rw [List.cons_append, dedupAcc, if_pos hx, dedupAcc, if_pos hx]
      refine ih A seen (fun a ha => ?_)
      rcases hA a ha with hmem | hmem
      · rcases List.mem_cons.mp hmem with rfl | h2
        · exact Or.inr hx
        · exact Or.inl h2
      · exact Or.inr hmem
    · rw [List.cons_append, dedupAcc, if_neg hx, dedupAcc, if_neg hx]
      congr 1
      refine ih A (x :: seen) (fun a ha => ?_)
      rcases hA a ha with hmem | hmem
      · rcases List.mem_cons.mp hmem with rfl | h2
        · exact Or.inr (List.mem_cons_self _ _)
        · exact Or.inl h2
      · exact Or.inr (List.mem_cons_of_mem x hmem)

theorem dedupAcc_idem :
    ∀ (l seen : List String), dedupAcc seen (dedupAcc seen l) = dedupAcc seen l := by
  intro l
  induction l with
  | nil => intro seen; rfl
  | cons x xs ih =>
    intro seen
    by_cases hx : x ∈ seen
    · rw [dedupAcc, if_pos hx]
      exact ih seen
    · rw [dedupAcc, if_neg hx, dedupAcc, if_neg hx]
      congr 1
      exact ih (x :: seen)

theorem dedup_tags_idem (T A : List String) :
    dedupTags (dedupTags (T ++ A) ++ A) = dedupTags (T ++ A) := by
  unfold dedupTags
  have hsub : ∀ a ∈ A, a ∈ dedupAcc [] (T ++ A) ∨ a ∈ ([] : List String) := by
    intro a ha
    exact Or.inl (mem_dedupAcc (T ++ A) [] (List.mem_append_right T ha) (by simp))
  rw [dedupAcc_append_absorbed (dedupAcc [] (T ++ A)) A [] hsub]
  exact dedupAcc_idem (T ++ A) []

/-! ## Concrete fixtures -/

/-- A response parser that always fails (models malformed oracle output). -/
def noParse : String → Option OracleResult := fun _ => none

/-- The scenario input of the specification's testable-properties section. -/
def scenarioInput : String :=
  "User: What is a closure?\nAssistant: A closure is a function bundled with its lexical scope. TODO: read more."

/-- A conversation whose single assistant message opens with an action-item
marker. -/
def convTodo : ParsedConversation :=
  { title := "T"
    source := ConversationSource.custom
    messages := [ParsedMessage.mk Role.assistant (r"TODO: fix the bug")]
    tags := []
    category := none }

/-- The action-item highlight the fallback path extracts from `convTodo`. -/
def todoHighlight : Highlight :=
  { content := "fix the bug"
    category := Category.action_item
    confidence_score := mkRat 8 10
    tags := [r"action", r"todo"]
    notes := none
    position := { messageIndex := 0, startChar := 0, endChar := 17 } }

/-- The single message of `convHello`. -/
def msgHello : ParsedMessage := ParsedMessage.mk Role.user (r"hello world today")

/-- A one-message conversation used for oracle-path examples. -/
def convHello : ParsedConversation :=
  { title := "T2"
    source := ConversationSource.custom
    messages := [msgHello]
    tags := []
    category := none }

/-- An oracle-supplied highlight with a *negative* confidence score but a
valid, content-matching position into `convHello`. -/
def negScoreHighlight : Highlight :=
  { content := "hello world"
    category := Category.insight
    confidence_score := -1
    tags := []
    notes := none
    position := { messageIndex := 0, startChar := 0, endChar := 11 } }

/-- An oracle result carrying `negScoreHighlight`. -/
def negScoreOracle : OracleResult :=
  { highlights := [negScoreHighlight]
    summary := "s"
    key_topics := none
    action_items := none
    resources := none
    questions := none }

/-- A conversation whose assistant message is a single question. -/
def convQ : ParsedConversation :=
  { title := "T3"
    source := ConversationSource.custom
    messages := [ParsedMessage.mk Role.assistant (r"What is a closure really?")]
    tags := []
    category := none }

/-- The question highlight the fallback path extracts from `convQ`. -/
def qHighlight : Highlight :=
  { content := "What is a closure really?"
    category := Category.question
    confidence_score := mkRat 7 10
    tags := [r"question"]
    notes := none
    position := { messageIndex := 0, startChar := 0, endChar := 25 } }

/-- A highlight whose `endChar` exceeds the length of `convHello`'s message. -/
def badHighlight : Highlight :=
  { content := "hello world"
    category := Category.insight
    confidence_score := 1
    tags := []
    notes := none
    position := { messageIndex := 0, startChar := 0, endChar := 99 } }

/-! ## Claim C1 -/

/-- Claim C1 counterexample: in the deterministic fallback result for
`convTodo`, the action-item highlight's recorded span is the whole matched
line (`"TODO: fix the bug"`) while its content is only the capture
(`"fix the bug"`), so round-trip position integrity fails for it. -/
theorem roundTrip_fallback_counterexample :
    ((categorizeConversation noParse OracleOutcome.noOracle convTodo).highlights.all
      (fun h => roundTrip convTodo h)) = false := by
  decide

/-- Claim C1 (amended): round-trip position integrity holds for every
highlight on the oracle path (each passed `validateHighlight`) and for
every fallback-path highlight whose category is not `action_item`;
fallback action-item highlights can violate it because their recorded span
covers the whole matched segment (marker included) while their content is
only the capture group. -/
theorem roundTrip_amended :
    (∀ (conv : ParsedConversation) (r : OracleResult) (h : Highlight),
        h ∈ (validateAndEnhanceResult r conv).highlights → roundTrip conv h = true) ∧
    (∀ (conv : ParsedConversation) (h : Highlight),
        h ∈ (fallbackCategorization conv).highlights →
        h.category ≠ Category.action_item → roundTrip conv h = true) := by
  constructor
  · intro conv r h hm
    obtain ⟨h0, -, hv, rfl⟩ := validateAndEnhance_highlights_mem hm
    rw [roundTrip_enhance]
    exact validate_roundTrip hv
  · intro conv h hm hcat
    exact fallback_roundTrip_helper hm hcat

/-- Witness for `roundTrip_amended`: the enhanced negative-score highlight
on the oracle path over `convHello`, and the fallback question highlight
over `convQ`. -/
theorem roundTrip_amended_witness :
    roundTrip convHello (enhanceHighlight negScoreHighlight) = true ∧
    roundTrip convQ qHighlight = true := by
  constructor
  · exact roundTrip_amended.1 convHello negScoreOracle (enhanceHighlight negScoreHighlight)
      (by decide)
  · exact roundTrip_amended.2 convQ qHighlight (by decide) (by decide)

/-! ## Claim C2 -/

/-- Claim C2 counterexample: on the scenario input the no-oracle pipeline
produces no question highlight and no action-item highlight at all, while
the claim asserts exactly one of each. -/
theorem scenario_counterexample :
    ((categorizeConversation noParse OracleOutcome.noOracle (parse scenarioInput)).highlights.countP
        (fun h => decide (h.category = Category.question)) = 0) ∧
    ((categorizeConversation noParse OracleOutcome.noOracle (parse scenarioInput)).highlights.countP
        (fun h => decide (h.category = Category.action_item)) = 0) := by
  constructor <;> decide

/-- Claim C2 (amended): on the scenario input, with no oracle configured,
the pipeline yields exactly two messages with roles user then assistant and
key topics `["General Discussion"]`, but an *empty* highlight list: the
question sits in the user message, which the fallback extractors skip, and
the TODO marker sits mid-line, where `actionItemRegex` (anchored at `^` or
a newline) cannot match. -/
theorem scenario_amended :
    (parse scenarioInput).messages.map (fun m => m.role) = [Role.user, Role.assistant] ∧
    (categorizeConversation noParse OracleOutcome.noOracle (parse scenarioInput)).highlights = [] ∧
    (categorizeConversation noParse OracleOutcome.noOracle (parse scenarioInput)).key_topics =
      [r"General Discussion"] := by
  refine ⟨by decide, by decide, by decide⟩

/-! ## Claim C3 -/

/-- Claim C3 counterexample: `enhanceHighlight` clamps only from above
(`Math.min(score, 1.0)`), so the negative oracle-supplied score of
`negScoreHighlight` survives enhancement on the oracle path and the bound
`0 ≤ confidence_score` fails post-enhancement. -/
theorem score_bound_counterexample :
    ((validateAndEnhanceResult negScoreOracle convHello).highlights.all
        (fun h => decide (0 ≤ h.confidence_score) && decide (h.confidence_score ≤ 1))) = false := by
  decide

/-- Claim C3 (amended): after enhancement the score is `min(before, 1.0)`:
it never exceeds 1, and it lies in `[0, 1]` provided the pre-enhancement
score was nonnegative; a negative input score passes through unchanged. -/
theorem score_bound_amended (h : Highlight) :
    (enhanceHighlight h).confidence_score ≤ 1 ∧
    (0 ≤ h.confidence_score →
      0 ≤ (enhanceHighlight h).confidence_score ∧
        (enhanceHighlight h).confidence_score ≤ 1) := by
  rw [enhanceHighlight_score]
  exact ⟨min_le_right _ _, fun h0 => ⟨le_min h0 zero_le_one, min_le_right _ _⟩⟩

/-- Witness for `score_bound_amended` at the concrete highlight
`qHighlight` (score 0.7). -/
theorem score_bound_amended_witness :
    (enhanceHighlight qHighlight).confidence_score ≤ 1 ∧
    (0 ≤ (enhanceHighlight qHighlight).confidence_score ∧
      (enhanceHighlight qHighlight).confidence_score ≤ 1) :=
  ⟨(score_bound_amended qHighlight).1, (score_bound_amended qHighlight).2 (by decide)⟩

/-! ## Claim C4 -/

/-- Claim C4: when the oracle's reply fails to parse as the expected
structure, or a transport error occurred, `categorizeConversation` returns
exactly the deterministic fallback result for the same conversation; being
a total function, it propagates no error to the caller. -/
theorem oracle_failure_fallback (p : String → Option OracleResult)
    (conv : ParsedConversation) (c : String) (hp : p c = none) :
    categorizeConversation p (OracleOutcome.reply (some c)) conv = fallbackCategorization conv ∧
    categorizeConversation p OracleOutcome.transportError conv = fallbackCategorization conv := by
  constructor
  · rw [categorizeConversation]
    by_cases hc : c = emptyS
    · rw [if_pos hc]
    · rw [if_neg hc, hp]
  · rfl

/-- Witness for `oracle_failure_fallback`: the constant-failure parser on
the scenario conversation with reply text `"not json"`. -/
theorem oracle_failure_fallback_witness :
    categorizeConversation noParse (OracleOutcome.reply (some (r"not json")))
        (parse scenarioInput) = fallbackCategorization (parse scenarioInput) ∧
    categorizeConversation noParse OracleOutcome.transportError (parse scenarioInput) =
      fallbackCategorization (parse scenarioInput) :=
  oracle_failure_fallback noParse (parse scenarioInput) (r"not json") rfl

/-! ## Claim C5 -/

/-- Claim C5 counterexample: the fallback summary of `convHello` reads
`"Conversation about T2 with 1 user questions and 0 AI responses."`, not
the claimed `"conversation about T2 with 1 user turns and 0 assistant
turns"` format. -/
theorem fallback_summary_counterexample :
    generateFallbackSummary convHello =
        "Conversation about T2 with 1 user questions and 0 AI responses." ∧
    generateFallbackSummary convHello ≠
        "conversation about T2 with 1 user turns and 0 assistant turns" := by
  constructor <;> decide

/-- Claim C5 (amended): in the deterministic fallback path the summary is
derived from message role counts, with the template `"Conversation about
<title> with <N> user questions and <M> AI responses."` where N counts
user-role messages and M assistant-role messages. -/
theorem fallback_summary_amended (p : String → Option OracleResult)
    (conv : ParsedConversation) :
    (categorizeConversation p OracleOutcome.noOracle conv).summary =
      "Conversation about " ++ conv.title ++ " with " ++
        toString (conv.messages.countP (fun m => decide (m.role = Role.user))) ++
        " user questions and " ++
        toString (conv.messages.countP (fun m => decide (m.role = Role.assistant))) ++
        " AI responses." := by
  show generateFallbackSummary conv = _
  unfold generateFallbackSummary
  rw [List.countP_eq_length_filter, List.countP_eq_length_filter]

/-! ## Claim C6 -/

/-- Claim C6: `validateHighlight` is a total boolean predicate returning
`false` exactly when the message index is out of range, the offsets violate
`0 ≤ startChar < endChar ≤ length`, or the trimmed substring differs from
the trimmed content; in particular an `endChar` beyond the message length
always rejects, whatever the content. -/
theorem validateHighlight_spec (h : Highlight) (conv : ParsedConversation) :
    (validateHighlight h conv = false ↔
      ¬ ∃ msg, 0 ≤ h.position.messageIndex ∧
        conv.messages.get? h.position.messageIndex.toNat = some msg ∧
        0 ≤ h.position.startChar ∧ h.position.startChar < h.position.endChar ∧
        h.position.endChar ≤ (strLen msg.content : Int) ∧
        jsTrim (subChars msg.content h.position.startChar.toNat h.position.endChar.toNat) =
          jsTrim h.content) ∧
    (∀ msg, conv.messages.get? h.position.messageIndex.toNat = some msg →
      (strLen msg.content : Int) < h.position.endChar → validateHighlight h conv = false) := by
  constructor
  · rw [Bool.eq_false_iff]
    exact not_congr (validateHighlight_true_iff h conv)
  · intro msg hget hlen
    cases hb : validateHighlight h conv with
    | false => rfl
    | true =>
      obtain ⟨msg', -, hget', -, -, hle, -⟩ := (validateHighlight_true_iff h conv).mp hb
      rw [hget] at hget'
      injection hget' with he
      subst he
      omega

/-- Witness for `validateHighlight_spec`: the end offset 99 exceeds the
length of `convHello`'s message, so `badHighlight` is rejected. -/
theorem validateHighlight_spec_witness : validateHighlight badHighlight convHello = false :=
  (validateHighlight_spec badHighlight convHello).2 msgHello (by decide) (by decide)

/-! ## Claim C7 -/

/-- Claim C7: enhancement is idempotent — applying `enhanceHighlight` twice
yields the same tag list and the same confidence score as applying it
once. -/
theorem enhance_idempotent (h : Highlight) :
    (enhanceHighlight (enhanceHighlight h)).tags = (enhanceHighlight h).tags ∧
    (enhanceHighlight (enhanceHighlight h)).confidence_score =
      (enhanceHighlight h).confidence_score := by
  constructor
  · rw [enhanceHighlight_tags (enhanceHighlight h), enhanceHighlight_content,
      enhanceHighlight_tags h]
    exact dedup_tags_idem h.tags (enhanceAdds h.content)
  · rw [enhanceHighlight_score (enhanceHighlight h), enhanceHighlight_score h,
      min_assoc, min_self]

/-! ## Claim C8 -/

/-- Claim C8: `detectSource` is total, always returns one of the five
source identifiers, and returns `custom` on the empty string. -/
theorem detectSource_total :
    (∀ s : String,
      detectSource s = ConversationSource.chatgpt ∨
      detectSource s = ConversationSource.claude ∨
      detectSource s = ConversationSource.gemini ∨
      detectSource s = ConversationSource.perplexity ∨
      detectSource s = ConversationSource.custom) ∧
    detectSource emptyS = ConversationSource.custom := by
  constructor
  · intro s
    cases h : detectSource s <;> simp
  · decide

/-! ## Claim C9 -/

/-- Claim C9: every highlight of the deterministic (no-oracle) path has
category `code`, `action_item` or `question`; consequently the `resources`
list of the fallback result is always empty, and no insight, resource or
other-category highlight is ever produced without an oracle. -/
theorem fallback_categories (p : String → Option OracleResult) (conv : ParsedConversation) :
    (∀ h ∈ (categorizeConversation p OracleOutcome.noOracle conv).highlights,
        h.category = Category.code ∨ h.category = Category.action_item ∨
          h.category = Category.question) ∧
    (categorizeConversation p OracleOutcome.noOracle conv).resources = [] := by
  constructor
  · intro h hm
    exact fallback_category_helper hm
  · have hnil : (fallbackHighlightsFrom conv.messages 0).filter
        (fun h => decide (h.category = Category.resource)) = [] := by
      rw [List.filter_eq_nil_iff]
      intro h hm
      simp only [decide_eq_true_eq]
      have hm2 : h ∈ (fallbackCategorization conv).highlights := hm
      rcases fallback_category_helper hm2 with h1 | h1 | h1 <;> simp [h1]
    show ((fallbackHighlightsFrom conv.messages 0).filter
        (fun h => decide (h.category = Category.resource))).map (fun h => h.content) = []
    rw [hnil]
    rfl

/-- Witness for `fallback_categories` at `convTodo` and its action-item
highlight. -/
theorem fallback_categories_witness :
    (todoHighlight.category = Category.code ∨ todoHighlight.category = Category.action_item ∨
      todoHighlight.category = Category.question) ∧
    (categorizeConversation noParse OracleOutcome.noOracle convTodo).resources = [] :=
  ⟨(fallback_categories noParse convTodo).1 todoHighlight (by decide),
    (fallback_categories noParse convTodo).2⟩

/-! ## Claim C10 -/

/-- Claim C10: `enhanceHighlight` changes only `tags` and
`confidence_score` — content, category, notes and position are returned
unchanged; every pre-existing tag survives into the result, and the score
never increases. -/
theorem enhance_frame (h : Highlight) :
    (enhanceHighlight h).content = h.content ∧
    (enhanceHighlight h).category = h.category ∧
    (enhanceHighlight h).notes = h.notes ∧
    (enhanceHighlight h).position = h.position ∧
    (∀ t ∈ h.tags, t ∈ (enhanceHighlight h).tags) ∧
    (enhanceHighlight h).confidence_score ≤ h.confidence_score := by
  refine ⟨rfl, rfl, rfl, rfl, ?_, ?_⟩
  · intro t ht
    rw [enhanceHighlight_tags]
    exact mem_dedupAcc _ [] (List.mem_append_left _ ht) (by simp)
  · rw [enhanceHighlight_score]
    exact min_le_left _ _

/-- Witness for `enhance_frame` at `qHighlight` and its tag `"question"`. -/
theorem enhance_frame_witness :
    (enhanceHighlight qHighlight).content = qHighlight.content ∧
    (r"question") ∈ (enhanceHighlight qHighlight).tags ∧
    (enhanceHighlight qHighlight).confidence_score ≤ qHighlight.confidence_score :=
  ⟨(enhance_frame qHighlight).1,
    (enhance_frame qHighlight).2.2.2.2.1 (r"question") (by decide),
    (enhance_frame qHighlight).2.2.2.2.2⟩

end LlmsToPdf
